import Mathlib

/-!
Verification development for the SimplePIR private-search service.

The definitions below are a shallow embedding of `src/pir.py`, `src/utils.py`
and the bounds-checking logic of `src/client.py`.  Matrices and vectors are
lists (row-major, as numpy arrays), machine integers are `Nat`/`Int` with
explicit reductions.  The reference implementation routes matrix products
through float64 BLAS calls (`dgemv`, `ddot`, `dasum`); here those products are
modelled as exact integer arithmetic, which is the reference's own stated
contract for the linear-algebra kernel.  All concrete inputs used in the
closed theorems below keep every intermediate value below `2^53`, where
float64 arithmetic is exact, so at those inputs the model agrees with the
float path bit for bit.

Randomness is passed explicitly: `gen_params` receives the sampled public
matrix `a`, and `query` receives the sampled secret and error vectors.  The
samplers produce: secrets and `a`-entries uniform in `[0, 2^64 - 1)`
(`np.random.randint(0, q, dtype=np.uint64)`), and error entries
`int(np.random.normal(0, 3.2)) % 8`, i.e. integers in `[0, 8)`.

The text codec of `src/utils.py` compresses each document with `zlib` before
packing it into the matrix.  `zlib` is an external library, so the
development is parameterised by a `Codec`; the properties zlib's documented
behaviour guarantees (round trip, byte-valued output, nonempty output) are
collected in `GoodCodec` and assumed where needed.  `zlibMock` is a concrete
codec with the same contract used to instantiate closed statements, and
`zlibObserved` records the byte-for-byte outputs of `zlib.compress` (default
settings) on the three documents of the spec's `N = 3` scenario.
-/

namespace PrivateSearch

/-- Dot product of two vectors, truncating to the shorter length (as numpy
does; all uses here have equal lengths). -/
def listDot (u v : List Nat) : Nat :=
  (List.zipWith (fun a b => a * b) u v).sum

/-- Transpose of a row-major matrix with the given number of columns; entries
past a row's end read as 0 (never hit on the rectangular matrices used
here). -/
def transposeIdx (M : List (List Nat)) (cols : Nat) : List (List Nat) :=
  (List.range cols).map (fun j => M.map (fun row => row.getD j 0))

/-- Matrix product reduced elementwise mod `q`, as the reference's
`(A @ B) % q` on row-major matrices. -/
def matMulMod (A B : List (List Nat)) (q : Nat) : List (List Nat) :=
  A.map (fun row =>
    (transposeIdx B ((B.headD []).length)).map (fun colv => listDot row colv % q))

/-- Embeds the dataclass `SimplePIRParams` of `src/pir.py` (the float field
`std_dev` only feeds the samplers, which are explicit inputs here). -/
structure SimplePIRParams where
  n : Nat
  m : Nat
  q : Nat
  p : Nat
  a : List (List Nat)

/-- Embeds `gen_params` of `src/pir.py`: `q = np.uint64(2**64 - 1)`,
`p = 2**mod_power`; the uniformly sampled `m x n` matrix `a` is passed in
explicitly. -/
def gen_params (m : Nat) (n : Nat) (mod_power : Nat) (a : List (List Nat)) :
    SimplePIRParams :=
  ⟨n, m, 2 ^ 64 - 1, 2 ^ mod_power, a⟩

/-- Embeds `gen_hint` of `src/pir.py`: the database is cast to uint64
(`x % 2^64`), the additive offset `(q * (p // 2)) % q` is added mod `q`, and
the result is `a.T @ db_offset` reduced mod `q`. -/
def gen_hint (params : SimplePIRParams) (db : List (List Nat)) : List (List Nat) :=
  matMulMod (transposeIdx params.a params.n)
    (db.map (List.map (fun x =>
      (x % 2 ^ 64 + (params.q * (params.p / 2)) % params.q) % params.q)))
    params.q

/-- Modelled from the spec: the hint as the spec states it, `H = A^T (DB +
Delta * floor(p/2) * ones) mod q` with `Delta = q / p`, i.e. every database
entry is shifted by the additive offset `(q/p) * (p/2)` before the product
with `A^T` is taken mod `q`.  This definition exists only to be compared
with `gen_hint`, which embeds the source. -/
def gen_hint_spec (params : SimplePIRParams) (db : List (List Nat)) : List (List Nat) :=
  matMulMod (transposeIdx params.a params.n)
    (db.map (List.map (fun x =>
      (x + (params.q / params.p) * (params.p / 2)) % params.q)))
    params.q

/-- Embeds `encrypt` of `src/pir.py`: `b = a_matrix @ secret % q`, then
`(b + error + bits * (q // p))` in uint64 arithmetic (a single wrap mod
`2^64`, which subsumes numpy's per-operation wraparound) reduced `% q`. -/
def encrypt (secret : List Nat) (a_matrix : List (List Nat)) (bits : List Nat)
    (error : List Nat) (q p : Nat) : List Nat :=
  let b := a_matrix.map (fun row => listDot row secret % q)
  List.zipWith (fun x bit => (x + bit * (q / p)) % 2 ^ 64 % q)
    (List.zipWith (fun x e => x + e) b error) bits

/-- Embeds the one-hot assignment `query_vector[index] = 1` of `query` in
`src/pir.py`.  numpy integer indexing accepts `-db_size <= index < db_size`
(a negative index selects position `db_size + index`) and raises
`IndexError` otherwise; the failure is modelled as `none`. -/
def query_vector (index : Int) (db_size : Nat) : Option (List Nat) :=
  if -(db_size : Int) ≤ index ∧ index < (db_size : Int) then
    some ((List.range db_size).map (fun k =>
      if (k : Int) = (if index < 0 then index + db_size else index) then 1 else 0))
  else none

/-- Embeds `query` of `src/pir.py`, with the sampled secret and error vectors
passed explicitly; `none` models the `IndexError` raised by the one-hot
assignment for an out-of-range index. -/
def query (index : Int) (db_size : Nat) (params : SimplePIRParams)
    (secret : List Nat) (error : List Nat) : Option (List Nat × List Nat) :=
  (query_vector index db_size).map
    (fun v => (secret, encrypt secret params.a v error params.q params.p))

/-- Embeds `answer` of `src/pir.py`: `db.T @ query_cipher % q`. -/
def answer (query_cipher : List Nat) (db : List (List Nat)) (q : Nat) : List Nat :=
  (transposeIdx db ((db.headD []).length)).map
    (fun row => listDot row query_cipher % q)

/-- Embeds `recover` of `src/pir.py`.  Python `//` and `%` on these operands
are `Int.ediv` and `Int.emod`; `answer_cipher[0]` and `answer_cipher.item()`
coincide on the singleton arrays `recover_row` passes in. -/
def recover (secret : List Nat) (hint : List Nat) (answer_cipher : List Nat)
    (query_cipher : List Nat) (params : SimplePIRParams) : Int :=
  let q_over_p : Nat := params.q / params.p
  let answer_scalar : Int := (answer_cipher.headD 0 : Nat)
  let ratio : Nat := params.p / 2
  let query_sum : Nat := query_cipher.sum
  let hint_term : Nat := listDot secret hint % params.q
  let noised : Int :=
    Int.emod (answer_scalar - (ratio : Int) * (query_sum : Int) - (hint_term : Int))
      (params.q : Int)
  let denoised : Int :=
    Int.emod (Int.ediv (noised + ((q_over_p / 2 : Nat) : Int)) (q_over_p : Int))
      (params.q : Int)
  Int.emod (denoised - (ratio : Int)) (params.p : Int)

/-- Embeds `recover_row` of `src/pir.py`: one `recover` per hint column, with
the singleton slice `[answer_cipher[i]]`. -/
def recover_row (secret : List Nat) (hint : List (List Nat)) (answer_cipher : List Nat)
    (query_cipher : List Nat) (params : SimplePIRParams) : List Int :=
  (List.range ((hint.headD []).length)).map
    (fun i => recover secret (hint.map (fun row => row.getD i 0))
      [answer_cipher.getD i 0] query_cipher params)

/-- Embeds the bounds-checking path of `PIRClient.retrieve_article` in
`src/client.py`: the client raises before sending exactly when its own check
`index >= self.num_articles` fires, or when `pir_query`'s one-hot assignment
raises `IndexError` (both happen before any data is written to the
connection). -/
def retrieve_article_raises (index : Int) (num_articles : Nat)
    (params : SimplePIRParams) : Bool :=
  decide ((num_articles : Int) ≤ index) || (query_vector index params.m).isNone

/-! Concrete sampler-producible inputs for the round-trip counterexample:
`m = 8`, `n = 512`, `mod_power = 17`, the all-zero database (entries in
`[0, p)`), index `0`, the secret `e_0`, a zero error vector, and a public
matrix whose only nonzero entry is `a[0][0] = 2^47`. -/

def c1A : List (List Nat) :=
  (2 ^ 47 :: List.replicate 511 0) :: List.replicate 7 (List.replicate 512 0)

def c1Params : SimplePIRParams := gen_params 8 512 17 c1A

def c1Secret : List Nat := 1 :: List.replicate 511 0

def c1Error : List Nat := List.replicate 8 0

def c1DB : List (List Nat) := List.replicate 8 (List.replicate 8 0)

def c1Cq : List Nat := (2 ^ 48 - 1) :: List.replicate 7 0

/-- Abstract compressor interface standing in for the external `zlib`
library used by `src/utils.py` (`zlib.compress` / `zlib.decompress` with
default settings); `decompress` returns `none` where zlib raises
`zlib.error`. -/
structure Codec where
  compress : List Nat → List Nat
  decompress : List Nat → Option (List Nat)

/-- Contract that `zlib` satisfies: decompression inverts compression on
byte strings, compressed output is byte-valued, and every zlib stream is
nonempty (a 2-byte header and a 4-byte checksum are always present). -/
def GoodCodec (c : Codec) : Prop :=
  (∀ s : List Nat, (∀ b ∈ s, b < 256) → c.decompress (c.compress s) = some s) ∧
  (∀ s : List Nat, (∀ b ∈ s, b < 256) → ∀ b ∈ c.compress s, b < 256) ∧
  (∀ s : List Nat, c.compress s ≠ [])

/-- Fuel-driven search for the least `k` with `n ≤ k * k`. -/
def ceilSqrtGo (n : Nat) : Nat → Nat → Nat
  | 0, k => k
  | fuel + 1, k => if n ≤ k * k then k else ceilSqrtGo n fuel (k + 1)

/-- Least `k` with `n ≤ k * k`, i.e. `math.ceil(math.sqrt(n))` of
`strings_to_matrix` in `src/utils.py` (exact for the integer inputs used
there, where the float square root is well within half an ulp). -/
def ceilSqrt (n : Nat) : Nat := ceilSqrtGo n n 0

/-- Embeds `string_to_numbers` of `src/utils.py`.  Strings are modelled as
their UTF-8 byte lists, so the function is compression itself. -/
def string_to_numbers (c : Codec) (s : List Nat) : List Nat := c.compress s

/-- Embeds `numbers_to_string` of `src/utils.py`: `bytes(numbers)` raises
`ValueError` outside the `try` block when a value is not a byte (modelled as
`none`), and `zlib.error` inside the `try` yields the empty string.  (The
UTF-8 decode step is the identity here because strings are byte lists.) -/
def numbers_to_string (c : Codec) (numbers : List Int) : Option (List Nat) :=
  if numbers.all (fun x => decide (0 ≤ x) && decide (x < 256)) then
    some ((c.decompress (numbers.map Int.toNat)).getD [])
  else none

/-- One matrix row as `strings_to_matrix` builds it: length header, payload
bytes, zero padding up to the row width. -/
def rowFor (size : Nat) (nums : List Nat) : List Int :=
  ((nums.length : Int) :: nums.map (fun (b : Nat) => (b : Int)))
    ++ List.replicate (size - (nums.length + 1)) 0

/-- Embeds `strings_to_matrix` of `src/utils.py`.  `none` models the two
ways the Python function raises: `max()` of an empty sequence
(`ValueError`) when the input list is empty, and the numpy `IndexError`
when the row index reaches the matrix size (more strings than rows). -/
def strings_to_matrix (c : Codec) (strings : List (List Nat)) :
    Option (List (List Int) × Nat) :=
  if strings.isEmpty then none
  else
    let number_lists := strings.map c.compress
    let max_len := (number_lists.map List.length).foldr max 0
    let max_width := max_len + 1
    let total_elements := strings.length * max_width
    let matrix_size := max (ceilSqrt total_elements) max_width
    if strings.length ≤ matrix_size then
      some ((List.range matrix_size).map
        (fun i => rowFor matrix_size (number_lists.getD i [])), matrix_size)
    else none

/-- Embeds the per-row body of `matrix_to_strings` in `src/utils.py`:
reading `matrix[i, 0]` raises on a zero-width row (`none`); a positive
header decodes the clamped slice `matrix[i, 1:length+1]`, with any
exception from `numbers_to_string` caught by the bare `except` and turned
into the empty string; otherwise the row decodes to the empty string. -/
def decodeRow (c : Codec) (row : List Int) : Option (List Nat) :=
  match row with
  | [] => none
  | len :: rest =>
    if 0 < len then some ((numbers_to_string c (rest.take len.toNat)).getD [])
    else some []

/-- Sequencing of per-row results in loop order: the first failing row
aborts the whole call, as an uncaught Python exception would. -/
def seqRows (g : Nat → Option (List Nat)) : List Nat → Option (List (List Nat))
  | [] => some []
  | i :: rest =>
    match g i with
    | none => none
    | some s => (seqRows g rest).map (fun l => s :: l)

/-- Embeds `matrix_to_strings` of `src/utils.py`: decode rows
`0 .. num_strings - 1` in order. -/
def matrix_to_strings (c : Codec) (matrix : List (List Int)) (num_strings : Nat) :
    Option (List (List Nat)) :=
  seqRows (fun i => (matrix.get? i).bind (decodeRow c)) (List.range num_strings)

/-- Payload slice of a row, as `matrix_to_strings` reads it. -/
def rowPayload (row : List Int) : List Int :=
  (row.drop 1).take (row.getD 0 0).toNat

/-- Row whose declared length is positive but whose payload is not valid
data: a cell outside byte range (`numbers_to_string` raises) or a payload
the compressor cannot invert (`zlib.error`, decoded as the empty string). -/
def malformedRow (c : Codec) (row : List Int) : Prop :=
  0 < row.getD 0 0 ∧
    (numbers_to_string c (rowPayload row) = none ∨
     numbers_to_string c (rowPayload row) = some [])

/-- Concrete codec satisfying `GoodCodec`: a 2-byte header, the raw
payload, and a 1-byte trailer, mirroring the shape (header + body +
checksum) of a zlib stream. -/
def zlibMock : Codec :=
  ⟨fun s => 120 :: 156 :: (s ++ [1]),
   fun l =>
     match l with
     | 120 :: 156 :: rest => if rest.isEmpty then none else some rest.dropLast
     | _ => none⟩

/-- Compressor pinned to the observed outputs of `zlib.compress` (default
settings) on the three documents `"abc"`, `"de"`, `"fghij"` of the spec's
`N = 3` scenario — 11, 10 and 13 bytes respectively; other inputs fall back
to the mock shape, and decompression is irrelevant to the encoding path. -/
def zlibObserved : Codec :=
  ⟨fun s =>
    if s = [97, 98, 99] then [120, 156, 75, 76, 74, 6, 0, 2, 77, 1, 39]
    else if s = [100, 101] then [120, 156, 75, 73, 5, 0, 1, 47, 0, 202]
    else if s = [102, 103, 104, 105, 106] then
      [120, 156, 75, 75, 207, 200, 204, 2, 0, 6, 19, 2, 9]
    else 120 :: 156 :: (s ++ [1]),
   fun _ => none⟩

/-- UTF-8 byte lists of the documents `["abc", "de", "fghij"]`. -/
def c9Docs : List (List Nat) := [[97, 98, 99], [100, 101], [102, 103, 104, 105, 106]]

/-- Matrix produced by `strings_to_matrix zlibMock [[104, 105]]`. -/
def c5Matrix : List (List Int) :=
  [[5, 120, 156, 104, 105, 1], [0, 0, 0, 0, 0, 0], [0, 0, 0, 0, 0, 0],
   [0, 0, 0, 0, 0, 0], [0, 0, 0, 0, 0, 0], [0, 0, 0, 0, 0, 0]]

/-- Matrix produced by `strings_to_matrix zlibMock [[]]`. -/
def c8Matrix : List (List Int) :=
  [[3, 120, 156, 1], [0, 0, 0, 0], [0, 0, 0, 0], [0, 0, 0, 0]]

/-! Helper lemmas shared by the claim theorems below. -/

theorem zlibMock_good : GoodCodec zlibMock := by
  refine ⟨?_, ?_, ?_⟩
  · intro s _
    show (if (s ++ [1]).isEmpty then none else some (s ++ [1]).dropLast) = some s
    rw [if_neg (by simp)]
    simp
  · intro s hs b hb
    simp only [zlibMock, List.mem_cons, List.mem_append, List.mem_singleton] at hb
    rcases hb with h | h | h | h | h <;> first | omega | exact hs b h | simp at h
  · intro s
    simp [zlibMock]

theorem seqRows_eq_some (g : Nat → Option (List Nat)) (L : List Nat) :
    ∀ out : List (List Nat), out.length = L.length →
      (∀ j, j < L.length → g (L.getD j 0) = out.get? j) →
      seqRows g L = some out := by
  induction L with
  | nil =>
    intro out h _
    cases out with
    | nil => rfl
    | cons b obs => simp at h
  | cons i rest ih =>
    intro out h hall
    cases out with
    | nil => simp at h
    | cons b obs =>
      have h0 : g i = some b := by simpa using hall 0 (by simp)
      have hrec : seqRows g rest = some obs :=
        ih obs (by simpa using h) (fun j hj => by
          simpa using hall (j + 1) (by simp only [List.length_cons]; omega))
      simp [seqRows, h0, hrec]

theorem seqRows_exists (g : Nat → Option (List Nat)) (L : List Nat)
    (h : ∀ i ∈ L, (g i).isSome) :
    ∃ out, seqRows g L = some out ∧ out.length = L.length ∧
      ∀ j, j < L.length → out.get? j = g (L.getD j 0) := by
  induction L with
  | nil => exact ⟨[], rfl, rfl, fun j hj => absurd hj (by simp)⟩
  | cons i rest ih =>
    obtain ⟨b, hb⟩ := Option.isSome_iff_exists.mp (h i (by simp))
    obtain ⟨out, ho, hlen, hget⟩ := ih (fun x hx => h x (by simp [hx]))
    refine ⟨b :: out, ?_, by simp [hlen], ?_⟩
    · simp [seqRows, hb, ho]
    · intro j hj
      cases j with
      | zero => simp [hb]
      | succ j => simpa using hget j (by simpa using hj)

theorem decodeRow_rowFor (c : Codec) (hc : GoodCodec c) (s : List Nat)
    (hbytes : ∀ b ∈ s, b < 256) (size : Nat) :
    decodeRow c (rowFor size (c.compress s)) = some s := by
  obtain ⟨hrt, hbyte, hne⟩ := hc
  have key : ∀ nums : List Nat, 0 < nums.length → (∀ b ∈ nums, b < 256) →
      c.decompress nums = some s → decodeRow c (rowFor size nums) = some s := by
    intro nums hlen hb256 hdec
    have hmaplen : (nums.map (fun (b : Nat) => (b : Int))).length = nums.length := by simp
    have htake : ((nums.map (fun (b : Nat) => (b : Int))) ++
        List.replicate (size - (nums.length + 1)) (0 : Int)).take nums.length
          = nums.map (fun (b : Nat) => (b : Int)) := List.take_left' hmaplen
    have hall : ((nums.map (fun (b : Nat) => (b : Int))).all
        (fun x => decide (0 ≤ x) && decide (x < 256))) = true := by
      rw [List.all_eq_true]
      intro x hx
      obtain ⟨b, hb, hbx⟩ := List.mem_map.mp hx
      have hlt := hb256 b hb
      subst hbx
      simp only [Bool.and_eq_true, decide_eq_true_eq]
      omega
    have hmm : ((nums.map (fun (b : Nat) => (b : Int))).map Int.toNat) = nums := by
      rw [List.map_map]
      have hcomp : (Int.toNat ∘ fun (b : Nat) => (b : Int)) = id := by
        funext b
        simp
      rw [hcomp, List.map_id]
    simp only [rowFor, List.cons_append, decodeRow]
    rw [if_pos (by exact_mod_cast hlen), Int.toNat_natCast, htake]
    unfold numbers_to_string
    rw [if_pos hall, hmm, hdec]
    rfl
  exact key (c.compress s) (List.length_pos.mpr (hne s)) (hbyte s hbytes) (hrt s hbytes)

theorem roundtrip_core (c : Codec) (hc : GoodCodec c)
    (strings : List (List Nat)) (hbytes : ∀ s ∈ strings, ∀ b ∈ s, b < 256)
    (msz : Nat) (hle : strings.length ≤ msz) :
    matrix_to_strings c
      ((List.range msz).map (fun i => rowFor msz ((strings.map c.compress).getD i [])))
      strings.length = some strings := by
  unfold matrix_to_strings
  apply seqRows_eq_some
  · simp
  · intro j hj
    simp only [List.length_range] at hj
    have hgd : (List.range strings.length).getD j 0 = j := by
      simp [List.getD, List.getElem?_range, hj]
    rw [hgd]
    have hjm : j < msz := Nat.lt_of_lt_of_le hj hle
    obtain ⟨sj, hsj⟩ : ∃ sj, strings.get? j = some sj :=
      ⟨strings.get ⟨j, hj⟩, List.get?_eq_get hj⟩
    have hmem : sj ∈ strings := List.get?_mem hsj
    have hsj2 : strings[j]? = some sj := by
      rw [← List.get?_eq_getElem?]
      exact hsj
    have hnum : (strings.map c.compress).getD j [] = c.compress sj := by
      simp [List.getD, List.getElem?_map, hsj2]
    have hA : ((List.range msz).map
        (fun i => rowFor msz ((strings.map c.compress).getD i []))).get? j
        = some (rowFor msz ((strings.map c.compress).getD j [])) := by
      rw [List.get?_map, List.get?_range hjm]
      rfl
    rw [hA, hsj]
    simp only [Option.some_bind]
    rw [hnum]
    exact decodeRow_rowFor c hc sj (hbytes sj hmem) msz

theorem strings_matrix_roundtrip (c : Codec) (hc : GoodCodec c)
    (strings : List (List Nat)) (hbytes : ∀ s ∈ strings, ∀ b ∈ s, b < 256)
    (M : List (List Int)) (size : Nat)
    (hM : strings_to_matrix c strings = some (M, size)) :
    matrix_to_strings c M strings.length = some strings := by
  simp only [strings_to_matrix] at hM
  split at hM
  · exact absurd hM (by simp)
  · split at hM
    · rw [Option.some_inj, Prod.mk.injEq] at hM
      obtain ⟨hMeq, hszeq⟩ := hM
      subst hMeq
      rename_i hle
      exact roundtrip_core c hc strings hbytes _ hle
    · exact absurd hM (by simp)

theorem matrix_row_at (c : Codec) (strings : List (List Nat)) (i : Nat)
    (M : List (List Int)) (size : Nat)
    (hM : strings_to_matrix c strings = some (M, size))
    (hi : i < strings.length) :
    M.get? i = some (rowFor size ((strings.map c.compress).getD i [])) ∧
    strings.length ≤ size := by
  simp only [strings_to_matrix] at hM
  split at hM
  · exact absurd hM (by simp)
  · split at hM
    · rw [Option.some_inj, Prod.mk.injEq] at hM
      obtain ⟨hMeq, hszeq⟩ := hM
      subst hMeq
      subst hszeq
      rename_i hle
      constructor
      · rw [List.get?_map, List.get?_range (lt_of_lt_of_le hi hle)]
        rfl
      · exact hle
    · exact absurd hM (by simp)

theorem pow64_sub_one_div (l : Nat) (h : l ≤ 64) :
    (2 ^ 64 - 1) / 2 ^ l = 2 ^ (64 - l) - 1 := by
  have h1 : 2 ^ l * 2 ^ (64 - l) = 2 ^ 64 := by
    rw [← pow_add]
    congr 1
    omega
  have hp : 0 < 2 ^ l := pow_pos (by norm_num) l
  have hx : 0 < 2 ^ (64 - l) := pow_pos (by norm_num) (64 - l)
  obtain ⟨x, hxe⟩ : ∃ x, 2 ^ (64 - l) = x + 1 := ⟨2 ^ (64 - l) - 1, by omega⟩
  have h2 : 2 ^ l * (x + 1) = 2 ^ l * x + 2 ^ l := by ring
  rw [hxe] at h1
  have key : 2 ^ 64 - 1 = 2 ^ l * x + (2 ^ l - 1) := by omega
  rw [key, Nat.mul_add_div hp, Nat.div_eq_of_lt (by omega)]
  omega

/-! Claim theorems. -/

set_option maxRecDepth 4000

/-- C1: the claimed PIR round trip fails on the code.  With `m = 8`, the
all-zero database, index `0`, and sampler-producible randomness
(`a[0][0] = 2^47`, secret `e_0`, zero errors), `query` yields the
ciphertext `c1Cq`, `answer` yields the all-zero vector, and `recover_row`
returns `65536` at column `0` even though row `0` of the database is all
zeros.  The `ratio * query_sum` correction in `recover` presupposes a
database shift that `gen_hint` never applies (its offset
`(q * (p // 2)) % q` is identically zero), so the recovered row is not
`DB[0, :]` — contradicting the module's own round-trip test in
`src/pir.py`. -/
theorem C1_round_trip_fails :
    query 0 8 c1Params c1Secret c1Error = some (c1Secret, c1Cq) ∧
    answer c1Cq c1DB c1Params.q = List.replicate 8 0 ∧
    (recover_row c1Secret (gen_hint c1Params c1DB) (List.replicate 8 0) c1Cq c1Params).getD 0 0
      = 65536 ∧
    c1DB.getD 0 [] = List.replicate 8 0 :=
  ⟨by decide, by decide, by decide, by decide⟩

/-- C2 counterexample: at `m = n = 1`, `a = [[1]]`, `DB = [[0]]`, the hint
computed by the code is `[[0]]`, while the formula the claim states (offset
`Delta * floor(p/2)` added to each entry) gives `[[2^63 - 2^16]]`. -/
theorem C2_spec_formula_fails :
    gen_hint (gen_params 1 1 17 [[1]]) [[0]] = [[0]] ∧
    gen_hint_spec (gen_params 1 1 17 [[1]]) [[0]] = [[2 ^ 63 - 2 ^ 16]] ∧
    ([[(0 : Nat)]] : List (List Nat)) ≠ [[2 ^ 63 - 2 ^ 16]] :=
  ⟨by decide, by decide, by decide⟩

/-- C2 amended: the additive offset computed by `gen_hint` is
`(q * (p // 2)) % q = 0`, so the hint equals `A^T (DB mod 2^64) mod q` with
no shift at all; it has `n` rows, each as wide as the database. -/
theorem C2_hint_is_unshifted_product (params : SimplePIRParams) (db : List (List Nat)) :
    gen_hint params db =
      matMulMod (transposeIdx params.a params.n)
        (db.map (List.map (fun x => x % 2 ^ 64 % params.q))) params.q ∧
    (gen_hint params db).length = params.n ∧
    ∀ row ∈ gen_hint params db, row.length = (db.headD []).length := by
  have hoff : ∀ x : Nat,
      (x % 2 ^ 64 + (params.q * (params.p / 2)) % params.q) % params.q
        = x % 2 ^ 64 % params.q := by
    intro x
    rw [Nat.mul_mod_right, Nat.add_zero]
  refine ⟨?_, ?_, ?_⟩
  · unfold gen_hint
    simp only [hoff]
  · unfold gen_hint matMulMod transposeIdx
    simp
  · intro row hrow
    unfold gen_hint matMulMod at hrow
    obtain ⟨r, _, rfl⟩ := List.mem_map.mp hrow
    simp only [List.length_map, transposeIdx, List.length_range]
    cases db <;> simp

/-- C3 counterexample: the ciphertext modulus produced by `gen_params` is
`2^64 - 1`, not `2^64`. -/
theorem C3_q_is_not_two_pow_64 : (gen_params 8 512 17 []).q ≠ 2 ^ 64 := by decide

/-- C3 amended: `gen_params` fixes `q = 2^64 - 1` (for every `mod_power`),
so the scaling factor `Delta = q / p = 2^(64 - mod_power) - 1` is one less
than a power of two rather than a power of two. -/
theorem C3_q_value (m n mod_power : Nat) (a : List (List Nat)) (h : mod_power < 64) :
    (gen_params m n mod_power a).q = 2 ^ 64 - 1 ∧
    (gen_params m n mod_power a).q / (gen_params m n mod_power a).p
      = 2 ^ (64 - mod_power) - 1 :=
  ⟨rfl, pow64_sub_one_div mod_power (Nat.le_of_lt h)⟩

theorem C3_q_value_witness :
    17 < 64 ∧ ((gen_params 8 512 17 []).q = 2 ^ 64 - 1 ∧
      (gen_params 8 512 17 []).q / (gen_params 8 512 17 []).p = 2 ^ (64 - 17) - 1) :=
  ⟨by norm_num, C3_q_value 8 512 17 [] (by norm_num)⟩

/-- C4 counterexample: with empty secret, hint and query and the zero
answer, `recover` returns `65536 = p / 2`, which is outside the claimed
signed range `[-p/2, p/2)`. -/
theorem C4_output_can_reach_p_half :
    recover [] [] [0] [] (gen_params 1 512 17 []) = 65536 ∧
    ¬(recover [] [] [0] [] (gen_params 1 512 17 [])
        < ((gen_params 1 512 17 []).p : Int) / 2) :=
  ⟨by decide, by decide⟩

/-- C4 amended: `recover` ends in a Python `%` by the plaintext modulus, so
for parameters the code runs on (`0 < p ≤ q`) its output lies in the
nonnegative range `[0, p)`, not in `[-p/2, p/2)`. -/
theorem C4_output_range (secret hint answer_cipher query_cipher : List Nat)
    (params : SimplePIRParams) (hp : 0 < params.p) (_hpq : params.p ≤ params.q) :
    0 ≤ recover secret hint answer_cipher query_cipher params ∧
    recover secret hint answer_cipher query_cipher params < (params.p : Int) := by
  constructor
  · exact Int.emod_nonneg _ (by exact_mod_cast hp.ne')
  · exact Int.emod_lt_of_pos _ (by exact_mod_cast hp)

theorem C4_output_range_witness :
    0 < (gen_params 1 512 17 []).p ∧
    (gen_params 1 512 17 []).p ≤ (gen_params 1 512 17 []).q ∧
    (0 ≤ recover [] [] [0] [] (gen_params 1 512 17 []) ∧
      recover [] [] [0] [] (gen_params 1 512 17 [])
        < ((gen_params 1 512 17 []).p : Int)) :=
  ⟨by decide, by decide, C4_output_range [] [] [0] [] _ (by decide) (by decide)⟩

/-- C5 counterexample: on the empty list, `strings_to_matrix` raises
(`max()` of an empty sequence), so the claimed round trip fails at `S = []`. -/
theorem C5_empty_list_fails : strings_to_matrix zlibMock [] = none := rfl

/-- C5 amended: for every codec with zlib's contract and every list of byte
strings whose encoding succeeds (the list is nonempty and fits in the
computed matrix), decoding the matrix back yields exactly the original
list. -/
theorem C5_roundtrip_of_encode_success (c : Codec) (hc : GoodCodec c)
    (strings : List (List Nat)) (hbytes : ∀ s ∈ strings, ∀ b ∈ s, b < 256)
    (M : List (List Int)) (size : Nat)
    (hM : strings_to_matrix c strings = some (M, size)) :
    matrix_to_strings c M strings.length = some strings :=
  strings_matrix_roundtrip c hc strings hbytes M size hM

theorem C5_roundtrip_of_encode_success_witness :
    matrix_to_strings zlibMock c5Matrix 1 = some [[104, 105]] :=
  C5_roundtrip_of_encode_success zlibMock zlibMock_good [[104, 105]] (by decide)
    c5Matrix 6 (by decide)

/-- C6 counterexample: with `num_articles = 3` and `m = 6`, the client does
not raise for the negative index `-1`, although `-1` is outside `[0, 3)`. -/
theorem C6_negative_index_not_rejected :
    retrieve_article_raises (-1) 3 (gen_params 6 512 17 []) = false ∧ (-1 : Int) < 0 :=
  ⟨by decide, by decide⟩

/-- C6 amended: when the article count is at most the matrix size (as holds
for every database built by `strings_to_matrix`), `retrieve_article` raises
before sending exactly when `index >= num_articles` or `index < -m` (the
latter from numpy indexing inside `query`); indices in `[-m, 0)` are
accepted and a query is sent. -/
theorem C6_raises_iff (index : Int) (num_articles : Nat) (params : SimplePIRParams)
    (h : num_articles ≤ params.m) :
    retrieve_article_raises index num_articles params = true ↔
      ((num_articles : Int) ≤ index ∨ index < -(params.m : Int)) := by
  unfold retrieve_article_raises query_vector
  by_cases hc : -(params.m : Int) ≤ index ∧ index < (params.m : Int)
  · rw [if_pos hc]
    simp only [Option.isNone_some, Bool.or_false, decide_eq_true_eq]
    omega
  · rw [if_neg hc]
    simp only [Option.isNone_none, Bool.or_true, true_iff]
    omega

theorem C6_raises_iff_witness :
    3 ≤ (gen_params 6 512 17 []).m ∧
    (retrieve_article_raises 10 3 (gen_params 6 512 17 []) = true ↔
      (((3 : Nat) : Int) ≤ 10 ∨ (10 : Int) < -(((gen_params 6 512 17 []).m : Nat) : Int))) :=
  ⟨by decide, C6_raises_iff 10 3 _ (by decide)⟩

/-- C7 counterexample: `query` succeeds at the negative index `-1` for a
database of size `4`, although `-1` is outside `[0, 4)`. -/
theorem C7_negative_index_accepted :
    (query (-1) 4 (gen_params 4 512 17 []) [] []).isSome = true ∧ ¬(0 ≤ (-1 : Int)) :=
  ⟨by decide, by decide⟩

/-- C7 amended: `query` fails exactly when the index is outside `[-m, m)`
(numpy semantics of the one-hot assignment); every index in `[-m, 0)` is
accepted, selecting row `m + index`. -/
theorem C7_fails_iff (index : Int) (db_size : Nat) (params : SimplePIRParams)
    (secret error : List Nat) :
    query index db_size params secret error = none ↔
      (index < -(db_size : Int) ∨ (db_size : Int) ≤ index) := by
  unfold query query_vector
  by_cases hc : -(db_size : Int) ≤ index ∧ index < (db_size : Int)
  · rw [if_pos hc]
    simp only [Option.map_some']
    constructor
    · intro hcontra
      exact absurd hcontra (by simp)
    · intro hcontra
      omega
  · rw [if_neg hc]
    simp only [Option.map_none', true_iff]
    omega

/-- C8 counterexample: encoding a list holding one empty string gives a
matrix whose row 0 has leading cell `3` (the length of the compressed empty
string; `8` for real zlib), not `0`. -/
theorem C8_leading_cell_nonzero :
    (((strings_to_matrix zlibMock [[]]).getD ([], 0)).1.getD 0 []).getD 0 0 = 3 ∧
    (3 : Int) ≠ 0 :=
  ⟨by decide, by decide⟩

/-- C8 amended: an empty string at position `i` encodes to a row whose
leading cell is the length of the compressed empty byte string — nonzero
for every zlib-contract codec (zlib emits 8 bytes) — and the row still
decodes back to the empty string, via decompression rather than via the
zero-length branch. -/
theorem C8_empty_string_row (c : Codec) (hc : GoodCodec c)
    (strings : List (List Nat)) (i : Nat) (M : List (List Int)) (size : Nat)
    (hM : strings_to_matrix c strings = some (M, size))
    (hi : strings.get? i = some []) :
    (M.getD i []).getD 0 0 = ((c.compress []).length : Int) ∧
    (c.compress []).length ≠ 0 ∧
    (M.get? i).bind (decodeRow c) = some [] := by
  have hilt : i < strings.length := by
    by_contra hge
    rw [List.get?_eq_none.mpr (by omega)] at hi
    exact Option.noConfusion hi
  obtain ⟨hrow, hle⟩ := matrix_row_at c strings i M size hM hilt
  have hsj2 : strings[i]? = some [] := by
    rw [← List.get?_eq_getElem?]
    exact hi
  have hnum : (strings.map c.compress).getD i [] = c.compress [] := by
    simp [List.getD, List.getElem?_map, hsj2]
  rw [hnum] at hrow
  refine ⟨?_, ?_, ?_⟩
  · have hgetD : M.getD i [] = rowFor size (c.compress []) := by
      simp [List.getD, ← List.get?_eq_getElem?, hrow]
    rw [hgetD]
    simp [rowFor, List.cons_append]
  · intro h0
    exact hc.2.2 [] (List.length_eq_zero.mp h0)
  · rw [hrow]
    simp only [Option.some_bind]
    exact decodeRow_rowFor c hc [] (by simp) size

theorem C8_empty_string_row_witness :
    (c8Matrix.getD 0 []).getD 0 0 = ((zlibMock.compress []).length : Int) ∧
    (zlibMock.compress []).length ≠ 0 ∧
    (c8Matrix.get? 0).bind (decodeRow zlibMock) = some [] :=
  C8_empty_string_row zlibMock zlibMock_good [[]] 0 c8Matrix 4 (by decide) (by decide)

/-- C9 counterexample: on `["abc", "de", "fghij"]` with zlib's observed
output lengths (11, 10, 13 — compression adds header and checksum
overhead), `strings_to_matrix` does not return matrix size 6. -/
theorem C9_matrix_size_not_6 :
    (strings_to_matrix zlibObserved c9Docs).map Prod.snd ≠ some 6 := by decide

/-- C9 amended: on `["abc", "de", "fghij"]` the compressed lengths are 11,
10 and 13 bytes, so `W = 13 + 1 = 14`, `ceil(sqrt(3 * 14)) = 7` is raised
to `W`, and the matrix size is 14. -/
theorem C9_matrix_size_is_14 :
    (strings_to_matrix zlibObserved c9Docs).map Prod.snd = some 14 := by decide

/-- C10 counterexample: on a matrix whose rows have no cells, reading
`matrix[i, 0]` raises `IndexError`, so `matrix_to_strings` is not total on
every integer matrix with `k` at most the row count. -/
theorem C10_zero_width_matrix_raises :
    matrix_to_strings zlibMock [[], [], []] 1 = none ∧ 1 ≤ 3 :=
  ⟨rfl, by decide⟩

/-- C10 amended: on every matrix whose rows each have at least one cell and
every requested count `k` at most the row count, `matrix_to_strings` never
raises: it returns `k` strings, and every row with a positive declared
length but invalid payload (a cell outside byte range, or data the
compressor rejects) decodes to the empty string. -/
theorem C10_matrix_to_strings_total (c : Codec) (M : List (List Int)) (k : Nat)
    (hk : k ≤ M.length) (hrows : ∀ row ∈ M, row ≠ []) :
    ∃ rs, matrix_to_strings c M k = some rs ∧ rs.length = k ∧
      ∀ i, i < k → malformedRow c (M.getD i []) → rs.getD i [1] = [] := by
  have hsome : ∀ i ∈ List.range k, ((M.get? i).bind (decodeRow c)).isSome := by
    intro i hi
    have hik : i < k := List.mem_range.mp hi
    have hiM : i < M.length := lt_of_lt_of_le hik hk
    obtain ⟨row, hrow⟩ : ∃ row, M.get? i = some row :=
      ⟨M.get ⟨i, hiM⟩, List.get?_eq_get hiM⟩
    rw [hrow]
    simp only [Option.some_bind]
    have hne : row ≠ [] := hrows row (List.get?_mem hrow)
    cases row with
    | nil => exact absurd rfl hne
    | cons len rest =>
      simp only [decodeRow]
      split
      · rfl
      · rfl
  obtain ⟨out, ho, hlen, hget⟩ := seqRows_exists _ _ hsome
  refine ⟨out, ho, by simpa using hlen, ?_⟩
  intro i hik hmal
  have hiM : i < M.length := lt_of_lt_of_le hik hk
  obtain ⟨row, hrow⟩ : ∃ row, M.get? i = some row :=
    ⟨M.get ⟨i, hiM⟩, List.get?_eq_get hiM⟩
  have hgetD : M.getD i [] = row := by
    simp [List.getD, ← List.get?_eq_getElem?, hrow]
  rw [hgetD] at hmal
  have hgR : (List.range k).getD i 0 = i := by
    simp [List.getD, List.getElem?_range, hik]
  have houti : out.get? i = (M.get? i).bind (decodeRow c) := by
    have hx := hget i (by simpa using hik)
    rwa [hgR] at hx
  rw [hrow] at houti
  simp only [Option.some_bind] at houti
  obtain ⟨hpos, hbad⟩ := hmal
  cases row with
  | nil => simp at hpos
  | cons len rest =>
    have hlen0 : (0 : Int) < len := by simpa using hpos
    have hpay : rowPayload (len :: rest) = rest.take len.toNat := by
      simp [rowPayload]
    rw [hpay] at hbad
    have hdec : decodeRow c (len :: rest) = some [] := by
      simp only [decodeRow]
      rw [if_pos hlen0]
      rcases hbad with hb | hb <;> rw [hb] <;> rfl
    rw [hdec] at houti
    simp [List.getD, ← List.get?_eq_getElem?, houti]

theorem C10_matrix_to_strings_total_witness :
    ∃ rs, matrix_to_strings zlibMock ([[1, 999]] : List (List Int)) 1 = some rs ∧
      rs.length = 1 ∧
      ∀ i, i < 1 → malformedRow zlibMock (([[1, 999]] : List (List Int)).getD i []) →
        rs.getD i [1] = [] :=
  C10_matrix_to_strings_total zlibMock ([[1, 999]] : List (List Int)) 1
    (by decide) (by decide)

end PrivateSearch
